import Mathlib

/-!
Verification of the order-construction and quantity-formatting logic of a
Binance futures trading bot (bot.py).

Python decimal values are modelled exactly as a natural-number mantissa
together with an integer power of ten.  The detour the source takes
through binary floating point (float / Decimal / f-string) is modelled as
exact decimal arithmetic, which is faithful for all values within double
precision (at most 15 significant digits; exchange step sizes and order
quantities are far below that), and the Python string operations the
source performs (repr of a float, str.split, str.rstrip, f-string fixed
formatting, str.upper) are reproduced character by character over
`List Char`.
-/

/-- The character of a single decimal digit d (0 ≤ d ≤ 9). -/
def digitChar (d : Nat) : Char := Char.ofNat (48 + d)

/-- Numeric value of a decimal digit character. -/
def digitVal (c : Char) : Nat := c.toNat - 48

/-- Fuel-driven most-significant-first decimal digit expansion. -/
def natDigitsAux : Nat → Nat → List Char
  | 0, _ => []
  | fuel + 1, n =>
    if n < 10 then [digitChar n]
    else natDigitsAux fuel (n / 10) ++ [digitChar (n % 10)]

/-- Decimal digit string of a natural number, as Python prints it. -/
def natDigits (n : Nat) : List Char := natDigitsAux (n + 1) n

/-- Value of a most-significant-first digit string. -/
def digitsToNat (l : List Char) : Nat := l.foldl (fun a c => 10 * a + digitVal c) 0

/-- Python str.rstrip restricted to one strip character. -/
def pyRstrip (c : Char) (l : List Char) : List Char :=
  (l.reverse.dropWhile (fun x => x == c)).reverse

/-- Python str.upper on one character, restricted to ASCII (the only
alphabet appearing in symbols and sides here). -/
def pyCharUpper (c : Char) : Char :=
  if 'a' ≤ c ∧ c ≤ 'z' then Char.ofNat (c.toNat - 32) else c

/-- Python str.upper, restricted to ASCII. -/
def pyUpper (s : String) : String := ⟨s.data.map pyCharUpper⟩

/-- An exact nonnegative decimal number m · 10^e: the model of the Python
floats and Decimals this program manipulates. -/
structure PyDec where
  m : Nat
  e : Int
deriving DecidableEq

/-- Parse the suffix after the letter e of a float literal: an optional
sign and a nonempty digit string. -/
def parseExpChars : List Char → Option Int
  | [] => none
  | '+' :: ds => if ds ≠ [] ∧ ds.all Char.isDigit then some (digitsToNat ds) else none
  | '-' :: ds => if ds ≠ [] ∧ ds.all Char.isDigit then some (-(digitsToNat ds : Int)) else none
  | ds => if ds.all Char.isDigit then some (digitsToNat ds) else none

/-- Model of Python float() on plain nonnegative decimal literals: digits,
an optional fractional part and an optional exponent part.  A string
outside this grammar raises ValueError, modelled as none.  The binary
rounding of the resulting double is modelled as exact. -/
def parseFloatChars (l : List Char) : Option PyDec :=
  let ip := l.takeWhile Char.isDigit
  let rest := l.dropWhile Char.isDigit
  match rest with
  | [] => if ip = [] then none else some ⟨digitsToNat ip, 0⟩
  | '.' :: rest2 =>
    let fp := rest2.takeWhile Char.isDigit
    let rest3 := rest2.dropWhile Char.isDigit
    if ip = [] ∧ fp = [] then none
    else
      match rest3 with
      | [] => some ⟨digitsToNat (ip ++ fp), -(fp.length : Int)⟩
      | 'e' :: rest4 =>
        match parseExpChars rest4 with
        | some ex => some ⟨digitsToNat (ip ++ fp), ex - (fp.length : Int)⟩
        | none => none
      | _ => none
  | 'e' :: rest4 =>
    if ip = [] then none
    else
      match parseExpChars rest4 with
      | some ex => some ⟨digitsToNat ip, ex⟩
      | none => none
  | _ => none

/-- Remove factors of ten from the mantissa into the exponent: the
shortest-digits normalisation Python repr performs when printing a
float. -/
def decNormAux : Nat → Nat → Int → Nat × Int
  | 0, m, e => (m, e)
  | fuel + 1, m, e =>
    if m % 10 = 0 ∧ m ≠ 0 then decNormAux fuel (m / 10) (e + 1) else (m, e)

/-- Normalised form of a decimal: trailing zeros moved into the
exponent. -/
def decNorm (m : Nat) (e : Int) : Nat × Int := decNormAux m m e

/-- Pad a digit string on the left to at least two characters, as Python
prints the exponent of a float repr. -/
def pad2 (l : List Char) : List Char := if l.length < 2 then '0' :: l else l

/-- Model of Python repr(float) = str(float) on a nonnegative value:
shortest-digits normalisation, fixed notation while the decimal exponent
lies in [-4, 16) (always keeping one fractional digit for integral
values), scientific notation with a sign and a two-digit-minimum exponent
outside that range. -/
def pyFloatReprChars (q : PyDec) : List Char :=
  if q.m = 0 then ['0', '.', '0'] else
  let n := decNorm q.m q.e
  let ds := natDigits n.1
  let nd := ds.length
  let E : Int := (nd : Int) - 1 + n.2
  if -4 ≤ E ∧ E < 16 then
    if 0 ≤ n.2 then ds ++ List.replicate n.2.toNat '0' ++ ['.', '0']
    else if (-n.2).toNat < nd then
      ds.take (nd - (-n.2).toNat) ++ '.' :: ds.drop (nd - (-n.2).toNat)
    else '0' :: '.' :: (List.replicate ((-n.2).toNat - nd) '0' ++ ds)
  else
    (match ds with
     | [] => []
     | d :: rest => if rest = [] then [d] else d :: '.' :: rest)
    ++ 'e' :: (if E < 0 then '-' else '+') :: pad2 (natDigits E.natAbs)

/-- Python str() of a float value. -/
def pyStrDec (q : PyDec) : String := ⟨pyFloatReprChars q⟩

/-- precision = len(str(step_size).split('.')[-1]) if '.' in str(step_size)
else 0 (bot.py line 89). -/
def pyPrecisionChars (l : List Char) : Nat :=
  if '.' ∈ l then (l.reverse.takeWhile (fun c => c != '.')).length else 0

/-- Exponent of Python Decimal(s): the written exponent minus the number
of fractional digits of the written mantissa.  quantize truncates its
operand to this exponent. -/
def decimalExponentChars (l : List Char) : Int :=
  let mant := l.takeWhile (fun c => c != 'e')
  let rest := l.dropWhile (fun c => c != 'e')
  let ev : Int :=
    match rest with
    | 'e' :: t =>
      match parseExpChars t with
      | some ex => ex
      | none => 0
    | _ => 0
  let fracLen : Nat := if '.' ∈ mant then (mant.reverse.takeWhile (fun c => c != '.')).length else 0
  ev - (fracLen : Int)

/-- The coefficient Decimal.quantize with ROUND_DOWN computes on a
nonnegative value: the mantissa of the value truncated toward zero at
exponent eq (natural division is exactly ROUND_DOWN here because the
value is nonnegative).  pyQuantize applies the context gate on top. -/
def quantizeM (q : PyDec) (eq : Int) : Nat :=
  if eq ≤ q.e then q.m * 10 ^ (q.e - eq).toNat else q.m / 10 ^ (eq - q.e).toNat

/-- Decimal.quantize with ROUND_DOWN under the default decimal context:
the operation signals InvalidOperation (raised, since the trap is on by
default) whenever the length of the result coefficient exceeds the
context precision of 28 digits; otherwise it returns the truncated
coefficient. -/
def pyQuantize (q : PyDec) (eq : Int) : Option Nat :=
  if (natDigits (quantizeM q eq)).length ≤ 28 then some (quantizeM q eq) else none

/-- Round-half-even division, as C printf applies when a float is printed
with fewer fractional digits than its value carries. -/
def roundHalfEvenDiv (m d : Nat) : Nat :=
  let q := m / d
  let r := m % d
  if r * 2 < d then q
  else if d < r * 2 then q + 1
  else if q % 2 = 0 then q else q + 1

/-- Fixed-point rendering of the scaled mantissa M = value · 10^p with
exactly p fractional digits: the output of a Python f-string .pf format
on a nonnegative float. -/
def renderFixed (M p : Nat) : List Char :=
  if p = 0 then natDigits M
  else
    let ds := List.replicate (p + 1 - (natDigits M).length) '0' ++ natDigits M
    ds.take (ds.length - p) ++ '.' :: ds.drop (ds.length - p)

/-- Python f-string fixed formatting of a nonnegative decimal value with
p fractional digits: scale to an integer, rounding half-even when the
value carries more than p fractional digits. -/
def fstringF (x : PyDec) (p : Nat) : List Char :=
  if -(p : Int) ≤ x.e then renderFixed (x.m * 10 ^ (x.e + (p : Int)).toNat) p
  else renderFixed (roundHalfEvenDiv x.m (10 ^ (-(x.e + (p : Int))).toNat)) p

/-- One entry of a symbol's filter list in the exchange metadata; only
the fields this program reads are modelled. -/
structure FilterInfo where
  filterType : String
  stepSize : String
deriving DecidableEq

/-- One symbol record of the exchange metadata. -/
structure SymbolInfo where
  symbol : String
  filters : List FilterInfo
deriving DecidableEq

/-- get_symbol_info (bot.py lines 50-62): linear search of the exchange
metadata for the uppercased symbol; a missing symbol raises ValueError,
modelled as the error case. -/
def get_symbol_info (syms : List SymbolInfo) (symbol : String) : Except String SymbolInfo :=
  match syms.find? (fun si => si.symbol == pyUpper symbol) with
  | some si => Except.ok si
  | none => Except.error ("Symbol " ++ symbol ++ " not found")

/-- The loop of bot.py lines 80-83: first filter whose filterType is
LOT_SIZE. -/
def findLotSize (si : SymbolInfo) : Option FilterInfo :=
  si.filters.find? (fun fi => fi.filterType == "LOT_SIZE")

/-- The rendering tail of the format_quantity body applied to a quantize
result coefficient: float(), the f-string fixed format at the derived
precision, then rstrip of zeros and the dot (bot.py lines 92-96). -/
def stepRender (p : Nat) (eq : Int) (mt : Nat) : List Char :=
  pyRstrip '.' (pyRstrip '0' (fstringF ⟨mt, eq⟩ p))

/-- bot.py lines 88-96, the body of format_quantity once a LOT_SIZE
filter is present: step_size = float(stepSize); precision from
str(step_size); Decimal(str(quantity)).quantize(Decimal(str(step_size)),
ROUND_DOWN); then f-string fixed rendering and rstrip.  Either a stepSize
string float() cannot parse or a quantize overflowing the 28-digit
context precision raises, caught by the surrounding except.
Decimal(str(quantity)) denotes exactly the value of quantity (str of a
float is value-faithful and quantize reads only the value), so the
quantity enters by value. -/
def stepFormat (stepStr : String) (q : PyDec) : Except String (List Char) :=
  match parseFloatChars stepStr.data with
  | none => Except.error "could not convert string to float"
  | some step =>
    match pyQuantize q (decimalExponentChars (pyFloatReprChars step)) with
    | none => Except.error "InvalidOperation"
    | some mt =>
      Except.ok (stepRender (pyPrecisionChars (pyFloatReprChars step))
        (decimalExponentChars (pyFloatReprChars step)) mt)

/-- The try-block of format_quantity (bot.py lines 76-96).  The
exchange-metadata fetch is an input (transport failure = error); a failed
symbol lookup raises inside the block; a symbol without LOT_SIZE filter
returns str(quantity) directly (line 86). -/
def formatQuantityCore (exchangeInfo : Except String (List SymbolInfo))
    (symbol : String) (q : PyDec) : Except String (List Char) :=
  match exchangeInfo with
  | Except.error e => Except.error e
  | Except.ok syms =>
    match get_symbol_info syms symbol with
    | Except.error e => Except.error e
    | Except.ok si =>
      match findLotSize si with
      | none => Except.ok (pyFloatReprChars q)
      | some f => stepFormat f.stepSize q

/-- format_quantity (bot.py lines 75-100): the try/except wrapper — any
failure inside the body degrades to str(quantity) (lines 98-100). -/
def format_quantity (exchangeInfo : Except String (List SymbolInfo))
    (symbol : String) (q : PyDec) : String :=
  match formatQuantityCore exchangeInfo symbol q with
  | Except.ok s => ⟨s⟩
  | Except.error _ => pyStrDec q

/-- The keyword-argument record this program hands to
client.futures_create_order; absent keywords are none. -/
structure OrderRequest where
  symbol : String
  side : String
  type : String
  quantity : String
  price : Option String
  stopPrice : Option String
  timeInForce : Option String
deriving DecidableEq

/-- place_market_order (bot.py lines 102-142) up to the network call:
uppercase symbol and side, validate the side, format the quantity, build
the request.  A ValueError raised before the client call is the error
case. -/
def place_market_order (exchangeInfo : Except String (List SymbolInfo))
    (symbol side : String) (quantity : PyDec) : Except String OrderRequest :=
  if pyUpper side = "BUY" ∨ pyUpper side = "SELL" then
    Except.ok { symbol := pyUpper symbol, side := pyUpper side, type := "MARKET",
                quantity := format_quantity exchangeInfo (pyUpper symbol) quantity,
                price := none, stopPrice := none, timeInForce := none }
  else Except.error "Side must be BUY or SELL"

/-- place_limit_order (bot.py lines 144-190) up to the network call.  The
Python default argument time_in_force = GTC is modelled by an optional
argument: none means the caller omitted it. -/
def place_limit_order (exchangeInfo : Except String (List SymbolInfo))
    (symbol side : String) (quantity price : PyDec)
    (time_in_force : Option String) : Except String OrderRequest :=
  if pyUpper side = "BUY" ∨ pyUpper side = "SELL" then
    Except.ok { symbol := pyUpper symbol, side := pyUpper side, type := "LIMIT",
                quantity := format_quantity exchangeInfo (pyUpper symbol) quantity,
                price := some (pyStrDec price), stopPrice := none,
                timeInForce := some (time_in_force.getD "GTC") }
  else Except.error "Side must be BUY or SELL"

/-- place_stop_limit_order (bot.py lines 192-237) up to the network call.
The source performs no validation at all on this path: it uppercases,
formats the quantity and builds the request with the fixed type marker
STOP, so the builder is total. -/
def place_stop_limit_order (exchangeInfo : Except String (List SymbolInfo))
    (symbol side : String) (quantity price stop_price : PyDec)
    (time_in_force : Option String) : OrderRequest :=
  { symbol := pyUpper symbol, side := pyUpper side, type := "STOP",
    quantity := format_quantity exchangeInfo (pyUpper symbol) quantity,
    price := some (pyStrDec price), stopPrice := some (pyStrDec stop_price),
    timeInForce := some (time_in_force.getD "GTC") }

/-- The argument record passed to client.futures_get_open_orders by
get_open_orders (bot.py lines 254-262): the optional symbol filter, none
when the caller omitted it. -/
structure OpenOrdersCall where
  symbol : Option String
deriving DecidableEq

/-- get_open_orders passes its optional symbol argument straight through
to the client (bot.py line 256). -/
def get_open_orders (symbol : Option String) : OpenOrdersCall := ⟨symbol⟩

/-- The symbol argument get_current_price passes to
client.futures_symbol_ticker (bot.py line 66). -/
def get_current_price_call (symbol : String) : String := pyUpper symbol

/-- A decimal string in minimal form: no scientific notation, no trailing
decimal point, and no trailing zero in a fractional part. -/
def minimalDecimalShape (s : String) : Prop :=
  'e' ∉ s.data ∧ 'E' ∉ s.data ∧ s.data.getLast? ≠ some '.' ∧
    ('.' ∈ s.data → s.data.getLast? ≠ some '0')

/-- Demo exchange metadata: BTCUSDT with lot-size step 0.001. -/
def demoExchange : Except String (List SymbolInfo) :=
  Except.ok [⟨"BTCUSDT", [⟨"LOT_SIZE", "0.001"⟩]⟩]

/-- Demo exchange metadata: BTCUSDT with integer lot-size step 1. -/
def demoExchangeStep1 : Except String (List SymbolInfo) :=
  Except.ok [⟨"BTCUSDT", [⟨"LOT_SIZE", "1"⟩]⟩]

/-- Demo exchange metadata: BTCUSDT with the huge lot-size step 10^16,
whose float repr (1e+16) is in scientific notation. -/
def demoExchangeHuge : Except String (List SymbolInfo) :=
  Except.ok [⟨"BTCUSDT", [⟨"LOT_SIZE", "10000000000000000"⟩]⟩]

/-- Demo exchange metadata: BTCUSDT with the tiny lot-size step 2.5e-17,
whose Decimal quantize exponent is -18, so moderate quantities already
push the quantize coefficient toward the 28-digit context limit. -/
def demoExchangeTiny : Except String (List SymbolInfo) :=
  Except.ok [⟨"BTCUSDT", [⟨"LOT_SIZE", "0.000000000000000025"⟩]⟩]

/-- C1: with lot-size step 1 the spec requires quantity 5.9 to format to
5, the largest multiple of the step not exceeding it.  The code derives
precision 1 from str(float(1)) = 1.0 and quantizes at Decimal exponent
-1, so it returns 5.9 unchanged: the result is neither the claimed string
nor a multiple of the step. -/
theorem c1_step_one_quantity_5_9_formats_to_5_9 :
    format_quantity demoExchangeStep1 "BTCUSDT" ⟨59, -1⟩ = "5.9" ∧
      ("5.9" : String) ≠ "5" :=
  ⟨rfl, by decide⟩

/-- C2 counterexample: a stop-limit order with side hold is not rejected:
the request is constructed and carries side HOLD, so no InvalidSide
failure happens on the stop-limit path. -/
theorem c2_stop_limit_accepts_side_hold :
    (place_stop_limit_order demoExchange "BTCUSDT" "hold" ⟨1, 0⟩ ⟨100, 0⟩ ⟨90, 0⟩
        none).side = "HOLD" ∧ "HOLD" ≠ "BUY" ∧ "HOLD" ≠ "SELL" :=
  ⟨rfl, by decide, by decide⟩

/-- C2 amended: market and limit orders uppercase the side and fail, for
every exchange response (hence before any network call) unless the
uppercased side is BUY or SELL, and on success the request carries the
uppercased side; the stop-limit path uppercases the side but performs no
validation: it always builds a request carrying the uppercased side. -/
theorem c2_side_validation_market_limit_only :
    (∀ exchangeInfo symbol side q, pyUpper side ≠ "BUY" → pyUpper side ≠ "SELL" →
      place_market_order exchangeInfo symbol side q =
        Except.error "Side must be BUY or SELL") ∧
    (∀ exchangeInfo symbol side q p tif, pyUpper side ≠ "BUY" → pyUpper side ≠ "SELL" →
      place_limit_order exchangeInfo symbol side q p tif =
        Except.error "Side must be BUY or SELL") ∧
    (∀ exchangeInfo symbol side q, pyUpper side = "BUY" ∨ pyUpper side = "SELL" →
      ∃ req, place_market_order exchangeInfo symbol side q = Except.ok req ∧
        req.side = pyUpper side) ∧
    (∀ exchangeInfo symbol side q p sp tif,
      (place_stop_limit_order exchangeInfo symbol side q p sp tif).side = pyUpper side) := by
  refine ⟨?_, ?_, ?_, ?_⟩
  · intro exchangeInfo symbol side q h1 h2
    unfold place_market_order
    rw [if_neg (not_or.mpr ⟨h1, h2⟩)]
  · intro exchangeInfo symbol side q p tif h1 h2
    unfold place_limit_order
    rw [if_neg (not_or.mpr ⟨h1, h2⟩)]
  · intro exchangeInfo symbol side q h
    unfold place_market_order
    rw [if_pos h]
    exact ⟨_, rfl, rfl⟩
  · intro exchangeInfo symbol side q p sp tif
    rfl

/-- C2 witness: the amended statement applied at the concrete inputs of
the spec scenario (side buy accepted and normalised, side hold refused by
the market path). -/
theorem c2_side_validation_market_limit_only_witness :
    place_market_order demoExchange "BTCUSDT" "hold" ⟨1, 0⟩ =
        Except.error "Side must be BUY or SELL" ∧
      ∃ req, place_market_order demoExchange "BTCUSDT" "buy" ⟨1, 0⟩ = Except.ok req ∧
        req.side = pyUpper "buy" :=
  ⟨c2_side_validation_market_limit_only.1 demoExchange "BTCUSDT" "hold" ⟨1, 0⟩
      (by decide) (by decide),
    c2_side_validation_market_limit_only.2.2.1 demoExchange "BTCUSDT" "buy" ⟨1, 0⟩
      (Or.inl (by decide))⟩

/-- C4 counterexample: a limit order with time-in-force XYZ is not
rejected: the request is constructed carrying timeInForce XYZ, so no
InvalidTimeInForce validation exists. -/
theorem c4_invalid_tif_passes_through :
    place_limit_order demoExchange "BTCUSDT" "BUY" ⟨1, 0⟩ ⟨100, 0⟩ (some "XYZ") =
      Except.ok { symbol := "BTCUSDT", side := "BUY", type := "LIMIT", quantity := "1",
                  price := some "100.0", stopPrice := none, timeInForce := some "XYZ" } :=
  rfl

/-- C4 amended: when time_in_force is omitted the limit request carries
GTC, but no validation is performed: any supplied time-in-force value is
passed through unchanged into the request. -/
theorem c4_tif_defaults_gtc_without_validation :
    (∀ exchangeInfo symbol side q p, pyUpper side = "BUY" ∨ pyUpper side = "SELL" →
      ∃ req, place_limit_order exchangeInfo symbol side q p none = Except.ok req ∧
        req.timeInForce = some "GTC") ∧
    (∀ exchangeInfo symbol side q p tif, pyUpper side = "BUY" ∨ pyUpper side = "SELL" →
      ∃ req, place_limit_order exchangeInfo symbol side q p (some tif) = Except.ok req ∧
        req.timeInForce = some tif) := by
  constructor
  · intro exchangeInfo symbol side q p h
    unfold place_limit_order
    rw [if_pos h]
    exact ⟨_, rfl, rfl⟩
  · intro exchangeInfo symbol side q p tif h
    unfold place_limit_order
    rw [if_pos h]
    exact ⟨_, rfl, rfl⟩

/-- C4 witness: the amended statement at the spec scenario (omitted
time-in-force gives GTC; an arbitrary value passes through). -/
theorem c4_tif_defaults_gtc_without_validation_witness :
    (∃ req, place_limit_order demoExchange "BTCUSDT" "BUY" ⟨1, 0⟩ ⟨100, 0⟩ none =
        Except.ok req ∧ req.timeInForce = some "GTC") ∧
    ∃ req, place_limit_order demoExchange "BTCUSDT" "BUY" ⟨1, 0⟩ ⟨100, 0⟩ (some "IOC") =
        Except.ok req ∧ req.timeInForce = some "IOC" :=
  ⟨c4_tif_defaults_gtc_without_validation.1 demoExchange "BTCUSDT" "BUY" ⟨1, 0⟩ ⟨100, 0⟩
      (Or.inl (by decide)),
    c4_tif_defaults_gtc_without_validation.2 demoExchange "BTCUSDT" "BUY" ⟨1, 0⟩ ⟨100, 0⟩
      "IOC" (Or.inl (by decide))⟩

/-- C5 counterexample: a stop-limit order with both prices zero is not
rejected: the request is built with price and stop price 0.0, so no
positivity validation and no MissingPrice or MissingStopPrice failure
exists. -/
theorem c5_zero_prices_accepted :
    (place_stop_limit_order demoExchange "BTCUSDT" "BUY" ⟨1, 0⟩ ⟨0, 0⟩ ⟨0, 0⟩
        none).price = some "0.0" ∧
      (place_stop_limit_order demoExchange "BTCUSDT" "BUY" ⟨1, 0⟩ ⟨0, 0⟩ ⟨0, 0⟩
        none).stopPrice = some "0.0" :=
  ⟨rfl, rfl⟩

/-- C5 amended: every constructed stop-limit request carries both a price
field and a stop-price field (the stringified arguments, which are
mandatory call arguments) and the fixed type marker STOP, distinct from
LIMIT; the prices are not validated, so zero or negative prices are
passed through. -/
theorem c5_stop_limit_request_fields :
    ∀ exchangeInfo symbol side q p sp tif,
      (place_stop_limit_order exchangeInfo symbol side q p sp tif).price =
          some (pyStrDec p) ∧
        (place_stop_limit_order exchangeInfo symbol side q p sp tif).stopPrice =
          some (pyStrDec sp) ∧
        (place_stop_limit_order exchangeInfo symbol side q p sp tif).type = "STOP" ∧
        ("STOP" : String) ≠ "LIMIT" := by
  intro exchangeInfo symbol side q p sp tif
  exact ⟨rfl, rfl, rfl, by decide⟩

/-- C6: the try/except of format_quantity never propagates a failure of
the metadata lookup or of the formatting body: whenever the body fails,
format_quantity returns str(quantity). -/
theorem c6_formatting_failure_falls_back_to_str :
    ∀ exchangeInfo symbol q e,
      formatQuantityCore exchangeInfo symbol q = Except.error e →
        format_quantity exchangeInfo symbol q = pyStrDec q := by
  intro exchangeInfo symbol q e h
  unfold format_quantity
  rw [h]

/-- C6 witness: a transport failure of the metadata fetch degrades to
str(5.9) = 5.9 rather than aborting. -/
theorem c6_formatting_failure_falls_back_to_str_witness :
    formatQuantityCore (Except.error "connection reset") "BTCUSDT" ⟨59, -1⟩ =
        Except.error "connection reset" ∧
      format_quantity (Except.error "connection reset") "BTCUSDT" ⟨59, -1⟩ =
        pyStrDec ⟨59, -1⟩ :=
  ⟨rfl, c6_formatting_failure_falls_back_to_str (Except.error "connection reset")
    "BTCUSDT" ⟨59, -1⟩ "connection reset" rfl⟩

/-- C7 counterexample: a market order with an empty symbol is not
rejected: the request is constructed with symbol empty (the quantity
degrades to the fallback string because the metadata lookup fails), so no
InvalidSymbol validation exists. -/
theorem c7_empty_symbol_accepted :
    place_market_order demoExchange "" "BUY" ⟨1, 0⟩ =
      Except.ok { symbol := "", side := "BUY", type := "MARKET", quantity := "1.0",
                  price := none, stopPrice := none, timeInForce := none } :=
  rfl

/-- C7 amended: every order path uppercases the symbol before use, but
none validates it: any symbol, the empty string included, flows into the
constructed request. -/
theorem c7_symbol_uppercased_never_validated :
    (∀ exchangeInfo symbol q,
      ∃ req, place_market_order exchangeInfo symbol "BUY" q = Except.ok req ∧
        req.symbol = pyUpper symbol) ∧
    (∀ exchangeInfo symbol q p tif,
      ∃ req, place_limit_order exchangeInfo symbol "BUY" q p tif = Except.ok req ∧
        req.symbol = pyUpper symbol) ∧
    (∀ exchangeInfo symbol side q p sp tif,
      (place_stop_limit_order exchangeInfo symbol side q p sp tif).symbol =
        pyUpper symbol) := by
  refine ⟨?_, ?_, ?_⟩
  · intro exchangeInfo symbol q
    exact ⟨_, rfl, rfl⟩
  · intro exchangeInfo symbol q p tif
    exact ⟨_, rfl, rfl⟩
  · intro exchangeInfo symbol side q p sp tif
    rfl

/-- C8 counterexample: a market order with quantity zero is neither
rejected before formatting nor rejected as a zero-quantity order: the
request is constructed with quantity string 0. -/
theorem c8_zero_quantity_order_constructed :
    place_market_order demoExchange "BTCUSDT" "BUY" ⟨0, 0⟩ =
      Except.ok { symbol := "BTCUSDT", side := "BUY", type := "MARKET", quantity := "0",
                  price := none, stopPrice := none, timeInForce := none } :=
  rfl

/-- C8 amended: no quantity validation exists anywhere on the order path:
every quantity (zero and below-one-step values included) is formatted and
placed into the constructed request, and a quantity smaller than one step
truncates to the string 0 and is still submitted. -/
theorem c8_no_quantity_validation :
    (∀ exchangeInfo symbol q,
      ∃ req, place_market_order exchangeInfo symbol "BUY" q = Except.ok req ∧
        req.quantity = format_quantity exchangeInfo (pyUpper symbol) q) ∧
    format_quantity demoExchange "BTCUSDT" ⟨5, -4⟩ = "0" := by
  constructor
  · intro exchangeInfo symbol q
    exact ⟨_, rfl, rfl⟩
  · rfl

/-- C10 counterexample: the open-orders query passes a lowercase symbol
through to the client unchanged, so the symbol is not normalised to
uppercase on this query. -/
theorem c10_open_orders_symbol_not_uppercased :
    get_open_orders (some "btcusdt") = ⟨some "btcusdt"⟩ ∧
      pyUpper "btcusdt" ≠ "btcusdt" :=
  ⟨rfl, by decide⟩

/-- C10 amended: the price query uppercases its symbol before the client
call, while the open-orders query passes its optional symbol filter
through entirely unchanged (no symbol gives a request for all orders, a
symbol is forwarded verbatim without normalisation). -/
theorem c10_query_symbol_handling :
    (∀ symbol, get_current_price_call symbol = pyUpper symbol) ∧
    (∀ symbol, get_open_orders symbol = ⟨symbol⟩) ∧
    get_open_orders none = ⟨none⟩ := by
  exact ⟨fun symbol => rfl, fun symbol => rfl, rfl⟩

theorem digitChar_isDigit : ∀ d, d < 10 → (digitChar d).isDigit = true := by decide

theorem digitVal_digitChar : ∀ d, d < 10 → digitVal (digitChar d) = d := by decide

theorem digitChar_eq_zero_iff : ∀ d, d < 10 → (digitChar d = '0' ↔ d = 0) := by decide

theorem isDigit_ne_dot {c : Char} (h : c.isDigit = true) : c ≠ '.' :=
  fun he => absurd (he ▸ h) (by decide)

theorem isDigit_ne_e {c : Char} (h : c.isDigit = true) : c ≠ 'e' :=
  fun he => absurd (he ▸ h) (by decide)

theorem isDigit_ne_bigE {c : Char} (h : c.isDigit = true) : c ≠ 'E' :=
  fun he => absurd (he ▸ h) (by decide)

theorem isDigit_digitVal_lt {c : Char} (h : c.isDigit = true) : digitVal c < 10 := by
  simp only [Char.isDigit, Bool.and_eq_true, decide_eq_true_eq] at h
  obtain ⟨h1, h2⟩ := h
  have h3 : c.toNat ≤ 57 := h2
  simp only [digitVal]
  omega

theorem natDigitsAux_stable (n : Nat) : ∀ f1 f2, n < f1 → n < f2 →
    natDigitsAux f1 n = natDigitsAux f2 n := by
  induction n using Nat.strong_induction_on with
  | _ n ih =>
    intro f1 f2 h1 h2
    match f1, f2 with
    | g1 + 1, g2 + 1 =>
      unfold natDigitsAux
      by_cases h10 : n < 10
      · rw [if_pos h10, if_pos h10]
      · rw [if_neg h10, if_neg h10]
        have hlt : n / 10 < n := Nat.div_lt_self (by omega) (by omega)
        rw [ih (n / 10) hlt g1 g2 (by omega) (by omega)]

theorem natDigits_eq_aux (n fuel : Nat) (h : n < fuel) :
    natDigits n = natDigitsAux fuel n :=
  natDigitsAux_stable n (n + 1) fuel (Nat.lt_succ_self n) h

theorem natDigits_lt10 (n : Nat) (h : n < 10) : natDigits n = [digitChar n] := by
  unfold natDigits natDigitsAux
  rw [if_pos h]

theorem natDigits_ge10 (n : Nat) (h : 10 ≤ n) :
    natDigits n = natDigits (n / 10) ++ [digitChar (n % 10)] := by
  unfold natDigits
  conv =>
    lhs
    rw [natDigitsAux]
  rw [if_neg (by omega)]
  rw [← natDigits_eq_aux (n / 10) n (by omega)]
  rfl

theorem natDigits_ne_nil (n : Nat) : natDigits n ≠ [] := by
  by_cases h : n < 10
  · rw [natDigits_lt10 n h]; simp
  · rw [natDigits_ge10 n (by omega)]; simp

theorem mem_natDigits_isDigit (n : Nat) : ∀ c ∈ natDigits n, c.isDigit = true := by
  induction n using Nat.strong_induction_on with
  | _ n ih =>
    by_cases h : n < 10
    · rw [natDigits_lt10 n h]
      intro c hc
      rw [List.mem_singleton] at hc
      exact hc ▸ digitChar_isDigit n h
    · rw [natDigits_ge10 n (by omega)]
      intro c hc
      rcases List.mem_append.mp hc with h1 | h2
      · exact ih (n / 10) (Nat.div_lt_self (by omega) (by omega)) c h1
      · rw [List.mem_singleton] at h2
        exact h2 ▸ digitChar_isDigit (n % 10) (Nat.mod_lt n (by omega))

theorem digitsToNat_append_single (l : List Char) (c : Char) :
    digitsToNat (l ++ [c]) = 10 * digitsToNat l + digitVal c := by
  simp [digitsToNat, List.foldl_append]

theorem digitsToNat_natDigits (n : Nat) : digitsToNat (natDigits n) = n := by
  induction n using Nat.strong_induction_on with
  | _ n ih =>
    by_cases h : n < 10
    · rw [natDigits_lt10 n h]
      simp [digitsToNat, digitVal_digitChar n h]
    · rw [natDigits_ge10 n (by omega), digitsToNat_append_single,
        ih (n / 10) (Nat.div_lt_self (by omega) (by omega)),
        digitVal_digitChar (n % 10) (Nat.mod_lt n (by omega))]
      omega

theorem digitsToNat_zeros_acc (k : Nat) (l : List Char) :
    digitsToNat (List.replicate k '0' ++ l) = digitsToNat l := by
  induction k with
  | zero => rfl
  | succ j ih =>
    rw [List.replicate_succ]
    have : digitVal '0' = 0 := by decide
    simp only [digitsToNat, List.cons_append, List.foldl_cons] at *
    rw [this]
    simpa using ih

theorem digitsToNat_append_zeros (l : List Char) (z : Nat) :
    digitsToNat (l ++ List.replicate z '0') = digitsToNat l * 10 ^ z := by
  induction z with
  | zero => simp
  | succ j ih =>
    rw [List.replicate_succ' .., ← List.append_assoc, digitsToNat_append_single, ih]
    have : digitVal '0' = 0 := by decide
    rw [this]
    ring

theorem digitsToNat_mod10 (l : List Char) (c : Char) (h : l.getLast? = some c)
    (hc : c.isDigit = true) : digitsToNat l % 10 = digitVal c := by
  have hne : l ≠ [] := by
    intro he
    rw [he] at h
    simp at h
  have hdec := (List.dropLast_append_getLast hne).symm
  have hlast : l.getLast hne = c := by
    have := List.getLast?_eq_getLast l hne
    rw [h] at this
    exact (Option.some.injEq ..).mp this.symm
  calc digitsToNat l % 10 = digitsToNat (l.dropLast ++ [l.getLast hne]) % 10 := by rw [← hdec]
    _ = (10 * digitsToNat l.dropLast + digitVal (l.getLast hne)) % 10 := by
        rw [digitsToNat_append_single]
    _ = digitVal c % 10 := by rw [hlast]; omega
    _ = digitVal c := Nat.mod_eq_of_lt (isDigit_digitVal_lt hc)

theorem natDigits_mul10 (n : Nat) (h : 1 ≤ n) :
    natDigits (n * 10) = natDigits n ++ ['0'] := by
  have h10 : 10 ≤ n * 10 := by omega
  rw [natDigits_ge10 (n * 10) h10]
  have h1 : n * 10 / 10 = n := by omega
  have h2 : n * 10 % 10 = 0 := by omega
  rw [h1, h2]
  rfl

theorem natDigits_mul_pow10 (v z : Nat) (h : 1 ≤ v) :
    natDigits (v * 10 ^ z) = natDigits v ++ List.replicate z '0' := by
  induction z with
  | zero => simp
  | succ j ih =>
    have hp : 0 < 10 ^ j := pow_pos (by omega) j
    have hv : 1 ≤ v * 10 ^ j := by
      have := Nat.mul_le_mul h hp
      omega
    have : v * 10 ^ (j + 1) = (v * 10 ^ j) * 10 := by ring
    rw [this, natDigits_mul10 (v * 10 ^ j) hv, ih, List.replicate_succ' ..,
      List.append_assoc]

theorem natDigits_getLast (n : Nat) : (natDigits n).getLast? = some (digitChar (n % 10)) := by
  by_cases h : n < 10
  · rw [natDigits_lt10 n h, Nat.mod_eq_of_lt h]
    rfl
  · rw [natDigits_ge10 n (by omega)]
    simp

theorem head?_dropWhile_not (p : Char → Bool) (l : List Char) (a : Char)
    (h : (l.dropWhile p).head? = some a) : p a = false := by
  induction l with
  | nil => simp at h
  | cons x t ih =>
    by_cases hx : p x = true
    · rw [List.dropWhile_cons_of_pos hx] at h
      exact ih h
    · rw [List.dropWhile_cons_of_neg (by simp [hx])] at h
      simp at h
      rw [← h]
      simpa using hx

theorem pyRstrip_getLast_ne (c : Char) (l : List Char) :
    (pyRstrip c l).getLast? ≠ some c := by
  unfold pyRstrip
  rw [List.getLast?_reverse]
  intro h
  have := head?_dropWhile_not (fun x => x == c) l.reverse c h
  simp at this

theorem pyRstrip_decomposition (c : Char) (l : List Char) :
    ∃ k, l = pyRstrip c l ++ List.replicate k c := by
  refine ⟨(l.reverse.takeWhile (fun x => x == c)).length, ?_⟩
  have hsplit := List.takeWhile_append_dropWhile (fun x => x == c) l.reverse
  have htake : l.reverse.takeWhile (fun x => x == c) =
      List.replicate (l.reverse.takeWhile (fun x => x == c)).length c := by
    rw [List.eq_replicate_iff]
    refine ⟨rfl, ?_⟩
    intro b hb
    have := List.mem_takeWhile_imp hb
    simpa using this
  calc l = l.reverse.reverse := (List.reverse_reverse l).symm
    _ = (l.reverse.takeWhile (fun x => x == c) ++ l.reverse.dropWhile (fun x => x == c)).reverse := by
        rw [hsplit]
    _ = pyRstrip c l ++ List.replicate (l.reverse.takeWhile (fun x => x == c)).length c := by
        conv =>
          lhs
          rw [List.reverse_append, htake, List.reverse_replicate]
        rw [pyRstrip]

theorem pyRstrip_eq_self (c : Char) (l : List Char) (h : l.getLast? ≠ some c) :
    pyRstrip c l = l := by
  unfold pyRstrip
  match hrev : l.reverse with
  | [] =>
    have : l = [] := by simpa using congrArg List.reverse hrev
    simp [this]
  | a :: t =>
    have ha : a ≠ c := by
      intro he
      apply h
      rw [← List.head?_reverse, hrev, he]
      rfl
    rw [List.dropWhile_cons_of_neg (by simp [ha])]
    rw [← hrev, List.reverse_reverse]

theorem pyRstrip_append_replicate (c : Char) (l : List Char) (k : Nat) :
    pyRstrip c (l ++ List.replicate k c) = pyRstrip c l := by
  unfold pyRstrip
  rw [List.reverse_append, List.reverse_replicate]
  congr 1
  induction k with
  | zero => rfl
  | succ j ih =>
    rw [List.replicate_succ, List.cons_append, List.dropWhile_cons_of_pos (by simp)]
    exact ih

theorem dropWhile_append_of_ne_nil (p : Char → Bool) (l1 l2 : List Char)
    (h : l1.dropWhile p ≠ []) :
    (l1 ++ l2).dropWhile p = l1.dropWhile p ++ l2 := by
  induction l1 with
  | nil => simp at h
  | cons a t ih =>
    by_cases ha : p a = true
    · rw [List.cons_append, List.dropWhile_cons_of_pos ha, List.dropWhile_cons_of_pos ha]
      exact ih (by rwa [List.dropWhile_cons_of_pos ha] at h)
    · rw [List.cons_append, List.dropWhile_cons_of_neg (by simp [ha]),
        List.dropWhile_cons_of_neg (by simp [ha])]
      rfl

theorem pyRstrip_append_left (c : Char) (x y : List Char) (h : pyRstrip c y ≠ []) :
    pyRstrip c (x ++ y) = x ++ pyRstrip c y := by
  unfold pyRstrip at *
  rw [List.reverse_append]
  have hdw : y.reverse.dropWhile (fun a => a == c) ≠ [] := by
    intro he
    apply h
    rw [he]
    rfl
  rw [dropWhile_append_of_ne_nil _ _ _ hdw, List.reverse_append, List.reverse_reverse]

theorem count_le_of_rstrip (c d : Char) (l : List Char) :
    (pyRstrip c l).count d ≤ l.count d := by
  obtain ⟨k, hk⟩ := pyRstrip_decomposition c l
  conv =>
    rhs
    rw [hk]
  rw [List.count_append]
  omega

theorem mem_of_mem_rstrip (c d : Char) (l : List Char) (h : d ∈ pyRstrip c l) : d ∈ l := by
  obtain ⟨k, hk⟩ := pyRstrip_decomposition c l
  rw [hk, List.mem_append]
  exact Or.inl h

theorem takeWhile_all (p : Char → Bool) (l : List Char) (h : ∀ c ∈ l, p c = true) :
    l.takeWhile p = l := by
  rw [List.takeWhile_eq_self_iff]
  exact h

theorem dropWhile_all (p : Char → Bool) (l : List Char) (h : ∀ c ∈ l, p c = true) :
    l.dropWhile p = [] := by
  rw [List.dropWhile_eq_nil_iff]
  exact h

theorem takeWhile_all_append_cons (p : Char → Bool) (a : List Char) (c : Char)
    (r : List Char) (ha : ∀ x ∈ a, p x = true) (hc : p c = false) :
    (a ++ c :: r).takeWhile p = a := by
  induction a with
  | nil => simp [List.takeWhile_cons, hc]
  | cons x t ih =>
    rw [List.cons_append, List.takeWhile_cons_of_pos (ha x (by simp)),
      ih (fun y hy => ha y (by simp [hy]))]

theorem dropWhile_all_append_cons (p : Char → Bool) (a : List Char) (c : Char)
    (r : List Char) (ha : ∀ x ∈ a, p x = true) (hc : p c = false) :
    (a ++ c :: r).dropWhile p = c :: r := by
  induction a with
  | nil => simp [List.dropWhile_cons, hc]
  | cons x t ih =>
    rw [List.cons_append, List.dropWhile_cons_of_pos (ha x (by simp)),
      ih (fun y hy => ha y (by simp [hy]))]

theorem parseFloat_digits (l : List Char) (h : l ≠ [])
    (hd : ∀ c ∈ l, c.isDigit = true) :
    parseFloatChars l = some ⟨digitsToNat l, 0⟩ := by
  unfold parseFloatChars
  rw [takeWhile_all Char.isDigit l hd, dropWhile_all Char.isDigit l hd]
  simp [h]

theorem parseFloat_digits_dot_digits (a b : List Char) (hb : b ≠ [])
    (hda : ∀ c ∈ a, c.isDigit = true) (hdb : ∀ c ∈ b, c.isDigit = true) :
    parseFloatChars (a ++ '.' :: b) = some ⟨digitsToNat (a ++ b), -(b.length : Int)⟩ := by
  unfold parseFloatChars
  rw [takeWhile_all_append_cons Char.isDigit a '.' b hda (by decide),
    dropWhile_all_append_cons Char.isDigit a '.' b hda (by decide)]
  simp only [takeWhile_all Char.isDigit b hdb, dropWhile_all Char.isDigit b hdb]
  rw [if_neg (by simp [hb])]

theorem parseFloat_nil : parseFloatChars [] = none := rfl

theorem strip_shape (l : List Char)
    (hc : ∀ c ∈ l, c.isDigit = true ∨ c = '.') (hcount : l.count '.' ≤ 1) :
    'e' ∉ pyRstrip '.' (pyRstrip '0' l) ∧ 'E' ∉ pyRstrip '.' (pyRstrip '0' l) ∧
      (pyRstrip '.' (pyRstrip '0' l)).getLast? ≠ some '.' ∧
      ('.' ∈ pyRstrip '.' (pyRstrip '0' l) →
        (pyRstrip '.' (pyRstrip '0' l)).getLast? ≠ some '0') := by
  have hmem : ∀ c ∈ pyRstrip '.' (pyRstrip '0' l), c.isDigit = true ∨ c = '.' := by
    intro c hcmem
    exact hc c (mem_of_mem_rstrip '0' c l (mem_of_mem_rstrip '.' c (pyRstrip '0' l) hcmem))
  refine ⟨?_, ?_, pyRstrip_getLast_ne '.' (pyRstrip '0' l), ?_⟩
  · intro hmeme
    rcases hmem 'e' hmeme with h1 | h1
    · exact absurd h1 (by decide)
    · exact absurd h1 (by decide)
  · intro hmeme
    rcases hmem 'E' hmeme with h1 | h1
    · exact absurd h1 (by decide)
    · exact absurd h1 (by decide)
  · intro hdot hlast
    obtain ⟨k, hk⟩ := pyRstrip_decomposition '.' (pyRstrip '0' l)
    match hkk : k with
    | 0 =>
      simp at hk
      have := pyRstrip_getLast_ne '0' l
      rw [hk] at this
      exact this hlast
    | j + 1 =>
      have hc1 : (pyRstrip '0' l).count '.' ≤ 1 :=
        le_trans (count_le_of_rstrip '0' '.' l) hcount
      have : (pyRstrip '0' l).count '.' =
          (pyRstrip '.' (pyRstrip '0' l)).count '.' + (j + 1) := by
        conv =>
          lhs
          rw [hk]
        rw [List.count_append]
        simp
      have hdc : 0 < (pyRstrip '.' (pyRstrip '0' l)).count '.' :=
        List.count_pos_iff.mpr hdot
      omega

theorem renderFixed_zero_eq (M : Nat) : renderFixed M 0 = natDigits M := by
  unfold renderFixed
  rw [if_pos rfl]

theorem renderFixed_pos_decomposition (M p : Nat) (hp : p ≠ 0) :
    ∃ D F, renderFixed M p = D ++ '.' :: F ∧ D ≠ [] ∧ F.length = p ∧
      (∀ c ∈ D, c.isDigit = true) ∧ (∀ c ∈ F, c.isDigit = true) ∧
      digitsToNat (D ++ F) = M := by
  have hds : ∀ c ∈ List.replicate (p + 1 - (natDigits M).length) '0' ++ natDigits M,
      c.isDigit = true := by
    intro c hcmem
    rcases List.mem_append.mp hcmem with h1 | h1
    · rw [List.eq_of_mem_replicate h1]
      decide
    · exact mem_natDigits_isDigit M c h1
  have hlen : p + 1 ≤ (List.replicate (p + 1 - (natDigits M).length) '0' ++ natDigits M).length := by
    rw [List.length_append, List.length_replicate]
    omega
  refine ⟨(List.replicate (p + 1 - (natDigits M).length) '0' ++ natDigits M).take
      ((List.replicate (p + 1 - (natDigits M).length) '0' ++ natDigits M).length - p),
    (List.replicate (p + 1 - (natDigits M).length) '0' ++ natDigits M).drop
      ((List.replicate (p + 1 - (natDigits M).length) '0' ++ natDigits M).length - p),
    ?_, ?_, ?_, ?_, ?_, ?_⟩
  · unfold renderFixed
    rw [if_neg hp]
  · intro he
    have := congrArg List.length he
    rw [List.length_take] at this
    simp at this
    omega
  · rw [List.length_drop]
    omega
  · intro c hcmem
    exact hds c (List.mem_of_mem_take hcmem)
  · intro c hcmem
    exact hds c (List.mem_of_mem_drop hcmem)
  · rw [List.take_append_drop, digitsToNat_zeros_acc, digitsToNat_natDigits]

theorem renderFixed_chars (M p : Nat) :
    ∀ c ∈ renderFixed M p, c.isDigit = true ∨ c = '.' := by
  by_cases hp : p = 0
  · rw [hp, renderFixed_zero_eq]
    intro c hcmem
    exact Or.inl (mem_natDigits_isDigit M c hcmem)
  · obtain ⟨D, F, heq, _, _, hD, hF, _⟩ := renderFixed_pos_decomposition M p hp
    rw [heq]
    intro c hcmem
    rcases List.mem_append.mp hcmem with h1 | h1
    · exact Or.inl (hD c h1)
    · rcases List.mem_cons.mp h1 with h2 | h2
      · exact Or.inr h2
      · exact Or.inl (hF c h2)

theorem count_eq_zero_of_digits (l : List Char) (hd : ∀ c ∈ l, c.isDigit = true) :
    l.count '.' = 0 := by
  rw [List.count_eq_zero]
  intro hmem
  exact absurd ((by decide : ('.' : Char).isDigit = false)) (by simp [hd '.' hmem])

theorem renderFixed_count_dot (M p : Nat) : (renderFixed M p).count '.' ≤ 1 := by
  by_cases hp : p = 0
  · rw [hp, renderFixed_zero_eq]
    rw [count_eq_zero_of_digits (natDigits M) (mem_natDigits_isDigit M)]
    omega
  · obtain ⟨D, F, heq, _, _, hD, hF, _⟩ := renderFixed_pos_decomposition M p hp
    rw [heq, List.count_append, count_eq_zero_of_digits D hD, List.count_cons,
      count_eq_zero_of_digits F hF]
    simp

theorem roundHalfEvenDiv_mul (a d : Nat) (hd : 1 ≤ d) :
    roundHalfEvenDiv (a * d) d = a := by
  unfold roundHalfEvenDiv
  have h1 : a * d / d = a := Nat.mul_div_cancel a (by omega)
  have h2 : a * d % d = 0 := Nat.mul_mod_left a d
  rw [h1, h2, if_pos (by omega)]

theorem char_eq_zero_of_toNat (c : Char) (h : c.toNat = 48) : c = '0' :=
  Char.ext (UInt32.ext h)

theorem digitVal_ne_zero (c : Char) (h1 : c.isDigit = true) (h2 : c ≠ '0') :
    digitVal c ≠ 0 := by
  intro hv
  apply h2
  apply char_eq_zero_of_toNat
  simp only [Char.isDigit, Bool.and_eq_true, decide_eq_true_eq] at h1
  obtain ⟨ha, hb⟩ := h1
  have ha2 : 48 ≤ c.toNat := ha
  simp only [digitVal] at hv
  omega

theorem not_ten_dvd_digitsToNat (l : List Char) (c : Char) (hlast : l.getLast? = some c)
    (hc : c.isDigit = true) (hc0 : c ≠ '0') : ¬ (10 ∣ digitsToNat l) := by
  intro hdvd
  have hmod := digitsToNat_mod10 l c hlast hc
  have hz : digitsToNat l % 10 = 0 := by omega
  rw [hz] at hmod
  exact digitVal_ne_zero c hc hc0 hmod.symm

theorem mem_of_getLast?_eq (l : List Char) (c : Char) (h : l.getLast? = some c) :
    c ∈ l := by
  have hne : l ≠ [] := by
    intro he
    rw [he] at h
    simp at h
  have h2 := List.getLast?_eq_getLast l hne
  rw [h] at h2
  have h3 : c = l.getLast hne := by
    injection h2
  rw [h3]
  exact List.getLast_mem hne

theorem strip_render_parse_pos (M p : Nat) (hp : p ≠ 0) :
    ∃ (N t : Nat), parseFloatChars (pyRstrip '.' (pyRstrip '0' (renderFixed M p))) =
        some ⟨N, -(t : Int)⟩ ∧
      t ≤ p ∧ N * 10 ^ (p - t) = M ∧ (t = 0 ∨ ¬ (10 ∣ N)) := by
  obtain ⟨D, F, heq, hDne, hFlen, hD, hF, hval⟩ := renderFixed_pos_decomposition M p hp
  rw [heq]
  obtain ⟨z, hz⟩ := pyRstrip_decomposition '0' F
  have hDlast : D.getLast? ≠ some '.' := by
    intro hcon
    exact isDigit_ne_dot (hD '.' (mem_of_getLast?_eq D '.' hcon)) rfl
  by_cases hFrnil : pyRstrip '0' F = []
  · have hFrep : F = List.replicate z '0' := by
      conv =>
        lhs
        rw [hz]
      rw [hFrnil]
      rfl
    have hzp : z = p := by
      rw [← hFlen, hFrep, List.length_replicate]
    have h1 : pyRstrip '0' (D ++ '.' :: F) = D ++ ['.'] := by
      have hsp : D ++ '.' :: F = (D ++ ['.']) ++ List.replicate z '0' := by
        rw [hFrep, List.append_assoc]
        rfl
      rw [hsp, pyRstrip_append_replicate]
      apply pyRstrip_eq_self
      rw [List.getLast?_append_of_ne_nil D (by simp)]
      simp
    have h2 : pyRstrip '.' (D ++ ['.']) = D := by
      have hsp : D ++ ['.'] = D ++ List.replicate 1 '.' := rfl
      rw [hsp, pyRstrip_append_replicate]
      exact pyRstrip_eq_self '.' D hDlast
    rw [h1, h2]
    refine ⟨digitsToNat D, 0, parseFloat_digits D hDne hD, by omega, ?_, Or.inl rfl⟩
    have hpz : p - 0 = p := rfl
    rw [hpz, ← hzp, ← digitsToNat_append_zeros, ← hFrep, hval]
  · have hFrsub : ∀ c ∈ pyRstrip '0' F, c.isDigit = true := by
      intro c hcmem
      exact hF c (mem_of_mem_rstrip '0' c F hcmem)
    obtain ⟨cl, hcl⟩ : ∃ cl, (pyRstrip '0' F).getLast? = some cl := by
      match hm : (pyRstrip '0' F).getLast? with
      | some cl => exact ⟨cl, rfl⟩
      | none => exact absurd (List.getLast?_eq_none_iff.mp hm) hFrnil
    have hcld : cl.isDigit = true := hFrsub cl (mem_of_getLast?_eq _ cl hcl)
    have hcl0 : cl ≠ '0' := by
      intro hcon
      exact pyRstrip_getLast_ne '0' F (hcon ▸ hcl)
    have hlast2 : (D ++ '.' :: pyRstrip '0' F).getLast? = some cl := by
      have hr : D ++ '.' :: pyRstrip '0' F = D ++ (['.'] ++ pyRstrip '0' F) := rfl
      rw [hr, List.getLast?_append_of_ne_nil D (by simp),
        List.getLast?_append_of_ne_nil ['.'] hFrnil, hcl]
    have h1 : pyRstrip '0' (D ++ '.' :: F) = D ++ '.' :: pyRstrip '0' F := by
      have hsp : D ++ '.' :: F = (D ++ '.' :: pyRstrip '0' F) ++ List.replicate z '0' := by
        conv =>
          lhs
          rw [hz]
        simp
      rw [hsp, pyRstrip_append_replicate]
      apply pyRstrip_eq_self
      rw [hlast2]
      intro hcon
      exact hcl0 (by injection hcon)
    have h2 : pyRstrip '.' (D ++ '.' :: pyRstrip '0' F) = D ++ '.' :: pyRstrip '0' F := by
      apply pyRstrip_eq_self
      rw [hlast2]
      intro hcon
      exact isDigit_ne_dot hcld (by injection hcon)
    rw [h1, h2]
    have hzlen : (pyRstrip '0' F).length + z = p := by
      have := congrArg List.length hz
      rw [List.length_append, List.length_replicate] at this
      omega
    refine ⟨digitsToNat (D ++ pyRstrip '0' F), (pyRstrip '0' F).length,
      parseFloat_digits_dot_digits D (pyRstrip '0' F) hFrnil hD hFrsub, by omega, ?_, ?_⟩
    · have hsub : p - (pyRstrip '0' F).length = z := by omega
      rw [hsub, ← digitsToNat_append_zeros, List.append_assoc, ← hz, hval]
    · refine Or.inr ?_
      apply not_ten_dvd_digitsToNat (D ++ pyRstrip '0' F) cl ?_ hcld hcl0
      rw [List.getLast?_append_of_ne_nil D hFrnil]
      exact hcl

theorem strip_render_parse_zero_zero :
    parseFloatChars (pyRstrip '.' (pyRstrip '0' (renderFixed 0 0))) = none := by
  decide

theorem strip_render_parse_zero (M : Nat) (hM : 1 ≤ M) :
    ∃ (v z : Nat), M = v * 10 ^ z ∧ ¬ (10 ∣ v) ∧ 1 ≤ v ∧
      pyRstrip '.' (pyRstrip '0' (renderFixed M 0)) = natDigits v ∧
      parseFloatChars (pyRstrip '.' (pyRstrip '0' (renderFixed M 0))) = some ⟨v, 0⟩ := by
  obtain ⟨z, v, hvd, hMeq⟩ :=
    Nat.exists_eq_pow_mul_and_not_dvd (by omega : M ≠ 0) 10 (by norm_num)
  have hv1 : 1 ≤ v := by
    rcases Nat.eq_zero_or_pos v with h | h
    · rw [h, Nat.mul_zero] at hMeq
      omega
    · omega
  have hvm : v % 10 ≠ 0 := by
    intro h
    exact hvd (Nat.dvd_of_mod_eq_zero h)
  have hlastv : (natDigits v).getLast? = some (digitChar (v % 10)) := natDigits_getLast v
  have hdig : digitChar (v % 10) ≠ '0' := by
    intro hcon
    exact hvm ((digitChar_eq_zero_iff (v % 10) (Nat.mod_lt v (by omega))).mp hcon)
  have hdot : digitChar (v % 10) ≠ '.' :=
    isDigit_ne_dot (digitChar_isDigit (v % 10) (Nat.mod_lt v (by omega)))
  have ho : pyRstrip '.' (pyRstrip '0' (renderFixed M 0)) = natDigits v := by
    rw [renderFixed_zero_eq]
    have hnd : natDigits M = natDigits v ++ List.replicate z '0' := by
      rw [show M = v * 10 ^ z by rw [hMeq]; ring]
      exact natDigits_mul_pow10 v z hv1
    rw [hnd, pyRstrip_append_replicate,
      pyRstrip_eq_self '0' (natDigits v) (by rw [hlastv]; intro hcon; exact hdig (by injection hcon)),
      pyRstrip_eq_self '.' (natDigits v) (by rw [hlastv]; intro hcon; exact hdot (by injection hcon))]
  refine ⟨v, z, by rw [hMeq]; ring, hvd, hv1, ho, ?_⟩
  rw [ho, parseFloat_digits (natDigits v) (natDigits_ne_nil v) (mem_natDigits_isDigit v),
    digitsToNat_natDigits]


theorem quantizeM_mk (m : Nat) (e eq : Int) :
    quantizeM ⟨m, e⟩ eq =
      if eq ≤ e then m * 10 ^ (e - eq).toNat else m / 10 ^ (eq - e).toNat := rfl

theorem fstringF_mk (m : Nat) (e : Int) (p : Nat) :
    fstringF ⟨m, e⟩ p =
      if -(p : Int) ≤ e then renderFixed (m * 10 ^ ((e + (p : Int)).toNat)) p
      else renderFixed (roundHalfEvenDiv m (10 ^ ((-(e + (p : Int))).toNat))) p := rfl

theorem stepRender_eq (p : Nat) (eq : Int) (mt : Nat) :
    stepRender p eq mt = pyRstrip '.' (pyRstrip '0'
      (if -(p : Int) ≤ eq then renderFixed (mt * 10 ^ ((eq + (p : Int)).toNat)) p
       else renderFixed (roundHalfEvenDiv mt (10 ^ ((-(eq + (p : Int))).toNat))) p)) := by
  unfold stepRender
  rw [fstringF_mk]

theorem natDigits_strip_self (v : Nat) (hv1 : 1 ≤ v) (hvd : ¬ (10 ∣ v)) :
    pyRstrip '.' (pyRstrip '0' (natDigits v)) = natDigits v := by
  have hvm : v % 10 ≠ 0 := by
    intro h
    exact hvd (Nat.dvd_of_mod_eq_zero h)
  have hlastv := natDigits_getLast v
  have hmlt : v % 10 < 10 := Nat.mod_lt v (by omega)
  rw [pyRstrip_eq_self '0' (natDigits v) ?h0, pyRstrip_eq_self '.' (natDigits v) ?hdot]
  case h0 =>
    rw [hlastv]
    intro hcon
    exact hvm ((digitChar_eq_zero_iff (v % 10) hmlt).mp (by injection hcon))
  case hdot =>
    rw [hlastv]
    intro hcon
    exact isDigit_ne_dot (digitChar_isDigit (v % 10) hmlt) (by injection hcon)

theorem stepRender_idem (p : Nat) (eq : Int) (heq : eq ≤ 0) (mt : Nat) (d : PyDec)
    (hparse : parseFloatChars (stepRender p eq mt) = some d) :
    stepRender p eq (quantizeM d eq) = stepRender p eq mt := by
  by_cases hp : p = 0
  · subst hp
    by_cases hc : -((0 : Nat) : Int) ≤ eq
    · have hout : stepRender 0 eq mt =
          pyRstrip '.' (pyRstrip '0' (renderFixed (mt) 0)) := by
        rw [stepRender_eq, if_pos hc]
        have h1 : (eq + ((0 : Nat) : Int)).toNat = 0 := by omega
        rw [h1, pow_zero, Nat.mul_one]
      by_cases hM0 : mt = 0
      · rw [hout, hM0, strip_render_parse_zero_zero] at hparse
        exact absurd hparse (by simp)
      · obtain ⟨v, z, hMvz, hvd, hv1, ho, hpv⟩ :=
          strip_render_parse_zero (mt) (by omega)
        rw [hout, hpv] at hparse
        have hd : d = ⟨v, 0⟩ := by
          injection hparse with h2
          exact h2.symm
        subst hd
        have hq2 : quantizeM ⟨v, (0 : Int)⟩ eq = v := by
          rw [quantizeM_mk, if_pos (by omega : eq ≤ (0 : Int))]
          have h2 : ((0 : Int) - eq).toNat = 0 := by omega
          rw [h2, pow_zero, Nat.mul_one]
        rw [hq2, stepRender_eq, if_pos hc]
        have h1 : (eq + ((0 : Nat) : Int)).toNat = 0 := by omega
        rw [h1, pow_zero, Nat.mul_one, renderFixed_zero_eq,
          natDigits_strip_self v hv1 hvd, hout, ho]
    · have hkpos : 1 ≤ (-eq).toNat := by omega
      have htn : (-(eq + ((0 : Nat) : Int))).toNat = (-eq).toNat := by omega
      have hout : stepRender 0 eq mt =
          pyRstrip '.' (pyRstrip '0'
            (renderFixed (roundHalfEvenDiv (mt) (10 ^ (-eq).toNat)) 0)) := by
        rw [stepRender_eq, if_neg hc, htn]
      by_cases hM0 : roundHalfEvenDiv (mt) (10 ^ (-eq).toNat) = 0
      · rw [hout, hM0, strip_render_parse_zero_zero] at hparse
        exact absurd hparse (by simp)
      · obtain ⟨v, z, hMvz, hvd, hv1, ho, hpv⟩ :=
          strip_render_parse_zero (roundHalfEvenDiv (mt) (10 ^ (-eq).toNat))
            (by omega)
        rw [hout, hpv] at hparse
        have hd : d = ⟨v, 0⟩ := by
          injection hparse with h2
          exact h2.symm
        subst hd
        have hq2 : quantizeM ⟨v, (0 : Int)⟩ eq = v * 10 ^ (-eq).toNat := by
          rw [quantizeM_mk, if_pos (by omega : eq ≤ (0 : Int))]
          have h2 : ((0 : Int) - eq).toNat = (-eq).toNat := by omega
          rw [h2]
        rw [hq2, stepRender_eq, if_neg hc, htn,
          roundHalfEvenDiv_mul v (10 ^ (-eq).toNat) (Nat.one_le_pow _ _ (by omega)),
          renderFixed_zero_eq, natDigits_strip_self v hv1 hvd, hout, ho]
  · by_cases hc : -((p : Nat) : Int) ≤ eq
    · have hkp : (-eq).toNat ≤ p := by omega
      have htn : (eq + ((p : Nat) : Int)).toNat = p - (-eq).toNat := by omega
      have hout : stepRender p eq mt =
          pyRstrip '.' (pyRstrip '0'
            (renderFixed (mt * 10 ^ (p - (-eq).toNat)) p)) := by
        rw [stepRender_eq, if_pos hc, htn]
      obtain ⟨N, t, hparse2, htp, hNM, hor⟩ :=
        strip_render_parse_pos (mt * 10 ^ (p - (-eq).toNat)) p hp
      rw [hout, hparse2] at hparse
      have hd : d = ⟨N, -(t : Int)⟩ := by
        injection hparse with h2
        exact h2.symm
      subst hd
      have htk : t ≤ (-eq).toNat := by
        rcases hor with h0 | hnd
        · omega
        · by_contra hgt
          push_neg at hgt
          have hsplit : p - (-eq).toNat = (p - t) + (t - (-eq).toNat) := by omega
          rw [hsplit, pow_add, ← Nat.mul_assoc] at hNM
          have hpos : 0 < 10 ^ (p - t) := pow_pos (by omega) _
          have hcancel : N = mt * 10 ^ (t - (-eq).toNat) := by
            have h3 : N * 10 ^ (p - t) =
                mt * 10 ^ (t - (-eq).toNat) * 10 ^ (p - t) := by
              calc N * 10 ^ (p - t) = mt * 10 ^ (p - t) *
                  10 ^ (t - (-eq).toNat) := hNM
                _ = mt * 10 ^ (t - (-eq).toNat) * 10 ^ (p - t) := by ring
            exact Nat.eq_of_mul_eq_mul_right hpos h3
          apply hnd
          rw [hcancel]
          exact Dvd.dvd.mul_left (dvd_pow_self 10 (by omega)) _
      have hq2 : quantizeM ⟨N, -(t : Int)⟩ eq = N * 10 ^ ((-eq).toNat - t) := by
        rw [quantizeM_mk, if_pos (by omega : eq ≤ -(t : Int))]
        have h2 : (-(t : Int) - eq).toNat = (-eq).toNat - t := by omega
        rw [h2]
      rw [hq2, stepRender_eq, if_pos hc, htn]
      have harr : N * 10 ^ ((-eq).toNat - t) * 10 ^ (p - (-eq).toNat) =
          mt * 10 ^ (p - (-eq).toNat) := by
        rw [Nat.mul_assoc, ← pow_add]
        have h4 : (-eq).toNat - t + (p - (-eq).toNat) = p - t := by omega
        rw [h4, hNM]
      rw [harr, hout]
    · have hpk : p < (-eq).toNat := by omega
      have htn : (-(eq + ((p : Nat) : Int))).toNat = (-eq).toNat - p := by omega
      have hout : stepRender p eq mt =
          pyRstrip '.' (pyRstrip '0'
            (renderFixed (roundHalfEvenDiv (mt) (10 ^ ((-eq).toNat - p))) p)) := by
        rw [stepRender_eq, if_neg hc, htn]
      obtain ⟨N, t, hparse2, htp, hNM, hor⟩ :=
        strip_render_parse_pos (roundHalfEvenDiv (mt) (10 ^ ((-eq).toNat - p)))
          p hp
      rw [hout, hparse2] at hparse
      have hd : d = ⟨N, -(t : Int)⟩ := by
        injection hparse with h2
        exact h2.symm
      subst hd
      have hq2 : quantizeM ⟨N, -(t : Int)⟩ eq = N * 10 ^ ((-eq).toNat - t) := by
        rw [quantizeM_mk, if_pos (by omega : eq ≤ -(t : Int))]
        have h2 : (-(t : Int) - eq).toNat = (-eq).toNat - t := by omega
        rw [h2]
      rw [hq2, stepRender_eq, if_neg hc, htn]
      have harr : N * 10 ^ ((-eq).toNat - t) =
          N * 10 ^ (p - t) * 10 ^ ((-eq).toNat - p) := by
        rw [Nat.mul_assoc, ← pow_add]
        have h4 : p - t + ((-eq).toNat - p) = (-eq).toNat - t := by omega
        rw [h4]
      rw [harr, hNM,
        roundHalfEvenDiv_mul _ (10 ^ ((-eq).toNat - p)) (Nat.one_le_pow _ _ (by omega)),
        hout]

theorem string_mk_data (l : List Char) : (⟨l⟩ : String).data = l := rfl

theorem fstringF_chars (x : PyDec) (p : Nat) :
    ∀ c ∈ fstringF x p, c.isDigit = true ∨ c = '.' := by
  unfold fstringF
  split
  · exact renderFixed_chars _ p
  · exact renderFixed_chars _ p

theorem fstringF_count_dot (x : PyDec) (p : Nat) : (fstringF x p).count '.' ≤ 1 := by
  unfold fstringF
  split
  · exact renderFixed_count_dot _ p
  · exact renderFixed_count_dot _ p

/-- C3 counterexample: at quantity 10^26 with step 0.001 the quantize
coefficient would need 30 digits, so Decimal.quantize raises
InvalidOperation under the default 28-digit context and format_quantity
falls back to str(1e26) = 1e+26 — a string in scientific notation, so the
output is not a minimal decimal representation. -/
theorem c3_context_overflow_formats_scientific :
    format_quantity demoExchange "BTCUSDT" ⟨1, 26⟩ = "1e+26" ∧
      'e' ∈ ("1e+26" : String).data ∧
      ¬ minimalDecimalShape (format_quantity demoExchange "BTCUSDT" ⟨1, 26⟩) := by
  refine ⟨rfl, by decide, ?_⟩
  unfold minimalDecimalShape
  decide

/-- C3 amended: for every present lot-size filter whose step size parses
as a float and every quantity whose quantize coefficient stays within the
default 28-digit Decimal context (so the truncation does not raise and
fall back to str(quantity)), the string format_quantity returns is in
minimal decimal form (no scientific notation, no trailing decimal point,
no trailing zero in a fractional part); in particular step 0.001 with
quantity 1.23456 formats to 1.234. -/
theorem c3_minimal_decimal_string :
    (∀ (syms : List SymbolInfo) (symbol : String) (q : PyDec) (si : SymbolInfo)
        (f : FilterInfo) (step : PyDec),
      get_symbol_info syms symbol = Except.ok si →
      findLotSize si = some f →
      parseFloatChars f.stepSize.data = some step →
      (natDigits (quantizeM q (decimalExponentChars (pyFloatReprChars step)))).length ≤ 28 →
      minimalDecimalShape (format_quantity (Except.ok syms) symbol q)) ∧
    format_quantity demoExchange "BTCUSDT" ⟨123456, -5⟩ = "1.234" := by
  constructor
  · intro syms symbol q si f step hsi hf hstep hctx
    have hpq : pyQuantize q (decimalExponentChars (pyFloatReprChars step)) =
        some (quantizeM q (decimalExponentChars (pyFloatReprChars step))) := by
      unfold pyQuantize
      rw [if_pos hctx]
    have hcore : formatQuantityCore (Except.ok syms) symbol q =
        Except.ok (stepRender (pyPrecisionChars (pyFloatReprChars step))
          (decimalExponentChars (pyFloatReprChars step))
          (quantizeM q (decimalExponentChars (pyFloatReprChars step)))) := by
      simp only [formatQuantityCore, hsi, hf, stepFormat, hstep, hpq]
    unfold format_quantity
    rw [hcore]
    unfold minimalDecimalShape stepRender
    rw [string_mk_data]
    exact strip_shape (fstringF ⟨quantizeM q (decimalExponentChars (pyFloatReprChars step)),
        decimalExponentChars (pyFloatReprChars step)⟩
        (pyPrecisionChars (pyFloatReprChars step)))
      (fstringF_chars _ _) (fstringF_count_dot _ _)
  · rfl

/-- C3 witness: the shape theorem applied at the demo metadata (step
0.001) and quantity 31.415, whose quantize coefficient 31415 is well
within the 28-digit context. -/
theorem c3_minimal_decimal_string_witness :
    minimalDecimalShape (format_quantity demoExchange "BTCUSDT" ⟨31415, -3⟩) :=
  c3_minimal_decimal_string.1 [⟨"BTCUSDT", [⟨"LOT_SIZE", "0.001"⟩]⟩] "BTCUSDT" ⟨31415, -3⟩
    ⟨"BTCUSDT", [⟨"LOT_SIZE", "0.001"⟩]⟩ ⟨"LOT_SIZE", "0.001"⟩ ⟨1, -3⟩ rfl rfl rfl
    (by decide)

/-- C9 amended: formatting is idempotent whenever the step size is an
ordinary one — its quantize exponent is not positive, which holds for
every step below 10^16 — the first output denotes a decimal quantity
(parses back; an empty output cannot be fed back at all), and both
quantize operations stay within the default 28-digit Decimal context
(otherwise the truncation raises InvalidOperation and formatting falls
back to str(quantity)). -/
theorem c9_format_idempotent_within_context :
    ∀ (syms : List SymbolInfo) (symbol : String) (q d : PyDec) (si : SymbolInfo)
      (f : FilterInfo) (step : PyDec),
      get_symbol_info syms symbol = Except.ok si →
      findLotSize si = some f →
      parseFloatChars f.stepSize.data = some step →
      decimalExponentChars (pyFloatReprChars step) ≤ 0 →
      (natDigits (quantizeM q (decimalExponentChars (pyFloatReprChars step)))).length ≤ 28 →
      (natDigits (quantizeM d (decimalExponentChars (pyFloatReprChars step)))).length ≤ 28 →
      parseFloatChars (format_quantity (Except.ok syms) symbol q).data = some d →
      format_quantity (Except.ok syms) symbol d =
        format_quantity (Except.ok syms) symbol q := by
  intro syms symbol q d si f step hsi hf hstep heq hctx1 hctx2 hparse
  have hpq1 : pyQuantize q (decimalExponentChars (pyFloatReprChars step)) =
      some (quantizeM q (decimalExponentChars (pyFloatReprChars step))) := by
    unfold pyQuantize
    rw [if_pos hctx1]
  have hpq2 : pyQuantize d (decimalExponentChars (pyFloatReprChars step)) =
      some (quantizeM d (decimalExponentChars (pyFloatReprChars step))) := by
    unfold pyQuantize
    rw [if_pos hctx2]
  have hfq : format_quantity (Except.ok syms) symbol q =
      ⟨stepRender (pyPrecisionChars (pyFloatReprChars step))
        (decimalExponentChars (pyFloatReprChars step))
        (quantizeM q (decimalExponentChars (pyFloatReprChars step)))⟩ := by
    unfold format_quantity
    simp only [formatQuantityCore, hsi, hf, stepFormat, hstep, hpq1]
  have hfd : format_quantity (Except.ok syms) symbol d =
      ⟨stepRender (pyPrecisionChars (pyFloatReprChars step))
        (decimalExponentChars (pyFloatReprChars step))
        (quantizeM d (decimalExponentChars (pyFloatReprChars step)))⟩ := by
    unfold format_quantity
    simp only [formatQuantityCore, hsi, hf, stepFormat, hstep, hpq2]
  rw [hfq, string_mk_data] at hparse
  rw [hfq, hfd]
  exact congrArg String.mk (stepRender_idem _ _ heq _ d hparse)

/-- C9 witness: the idempotence theorem at step 0.001 and quantity
1.23456, whose first output 1.234 parses back and reformats to itself,
with both quantize coefficients (1234 in each pass) inside the context. -/
theorem c9_format_idempotent_within_context_witness :
    parseFloatChars (format_quantity demoExchange "BTCUSDT" ⟨123456, -5⟩).data =
        some ⟨1234, -3⟩ ∧
      format_quantity demoExchange "BTCUSDT" ⟨1234, -3⟩ =
        format_quantity demoExchange "BTCUSDT" ⟨123456, -5⟩ :=
  ⟨rfl, c9_format_idempotent_within_context [⟨"BTCUSDT", [⟨"LOT_SIZE", "0.001"⟩]⟩]
    "BTCUSDT" ⟨123456, -5⟩ ⟨1234, -3⟩ ⟨"BTCUSDT", [⟨"LOT_SIZE", "0.001"⟩]⟩
    ⟨"LOT_SIZE", "0.001"⟩ ⟨1, -3⟩ rfl rfl rfl (by decide) (by decide) (by decide) rfl⟩

/-- C9 counterexample, two failing inputs of the claim as stated.  With
step 10^16 (float repr 1e+16, quantize exponent +16) quantity 5·10^16
formats to 5 but 5 formats to the empty string.  With step 2.5e-17
(quantize exponent -18) quantity 9999999999.999998 quantizes to a
28-digit coefficient and formats to 10000000000, but feeding 10^10 back
needs a 29-digit coefficient, so quantize raises InvalidOperation and
formatting falls back to str(1e10) = 10000000000.0, which differs. -/
theorem c9_huge_step_breaks_idempotence :
    (format_quantity demoExchangeHuge "BTCUSDT" ⟨5, 16⟩ = "5" ∧
      parseFloatChars ("5" : String).data = some ⟨5, 0⟩ ∧
      format_quantity demoExchangeHuge "BTCUSDT" ⟨5, 0⟩ = "" ∧
      ("" : String) ≠ "5") ∧
    (format_quantity demoExchangeTiny "BTCUSDT" ⟨9999999999999998, -6⟩ = "10000000000" ∧
      parseFloatChars ("10000000000" : String).data = some ⟨10000000000, 0⟩ ∧
      format_quantity demoExchangeTiny "BTCUSDT" ⟨10000000000, 0⟩ = "10000000000.0" ∧
      ("10000000000.0" : String) ≠ "10000000000") :=
  ⟨⟨rfl, rfl, rfl, by decide⟩, ⟨rfl, rfl, rfl, by decide⟩⟩
